import Mathlib

/-!
Shallow embedding of `e_backup.py`, an emergency database backup script.

Paths are modelled as lists of characters (`Str`).  The filesystem is an
explicit state `St`: an association list of regular files (path to content),
a list of existing directories, and a trace of invocations of the external
dump program (`pg_dump`, treated as a black box per the script's design).

Stateful Python code becomes explicit state passing; a raised exception is
`Except.error (err, st)` carrying the state at the raise point, since in
Python side effects performed before an exception persist.

Library functions used by the script (`os.path.join`, `os.path.basename`,
`os.path.dirname`, `os.path.normpath`, `os.path.abspath`, `os.listdir`,
`os.remove`, `shutil.rmtree`, `shutil.copy`, `bz2.BZ2File`, `tarfile`,
`datetime.strftime`) are modelled from their CPython (posixpath) semantics.
Relative paths given to the OS resolve against the ambient process working
directory `cwd`, threaded as an explicit parameter.
-/

/-- Paths and other Python strings, as lists of characters. -/
abbrev Str := List Char

/-- Embed a Lean string literal as a `Str`. -/
def str (s : String) : Str := s.data

/-- Python `p.startswith('/')`. -/
def startsWithSlash (l : Str) : Bool := l.head? = some '/'

/-- Python `p.endswith('/')`. -/
def endsWithSlash (l : Str) : Bool := l.getLast? = some '/'

/-- `os.path.join(a, b)` for POSIX paths (two-argument form, as used by the
script): an absolute second component discards the first; otherwise the parts
are glued with a separator unless the first is empty or already ends in one. -/
def osJoin (a b : Str) : Str :=
  if startsWithSlash b then b
  else if a = [] ∨ endsWithSlash a then a ++ b
  else a ++ '/' :: b

/-- `os.path.basename(p)`: everything after the last slash. -/
def osBasename : Str → Str
  | [] => []
  | c :: cs =>
    if '/' ∈ cs then osBasename cs
    else if c = '/' then cs
    else c :: cs

/-- `p[: p.rfind('/') + 1]`: everything up to and including the last slash
(empty when there is no slash), as computed inside `posixpath.dirname`. -/
def beforeLast : Str → Str
  | [] => []
  | c :: cs =>
    if '/' ∈ cs then c :: beforeLast cs
    else if c = '/' then ['/']
    else []

/-- Is the string made only of slashes? -/
def allSlash (l : Str) : Bool := l.all (· = '/')

/-- Python `head.rstrip('/')`. -/
def rstripSlash (l : Str) : Str := (l.reverse.dropWhile (· = '/')).reverse

/-- `os.path.dirname(p)` for POSIX paths. -/
def osDirname (p : Str) : Str :=
  let head := beforeLast p
  if !head.isEmpty && !allSlash head then rstripSlash head else head

/-- Python `p.split('/')`. -/
def splitSlash : Str → List Str
  | [] => [[]]
  | c :: cs =>
    if c = '/' then [] :: splitSlash cs
    else
      match splitSlash cs with
      | [] => [[c]]
      | s :: rest => (c :: s) :: rest

/-- One step of `posixpath.normpath`'s component loop. -/
def normStep (slashes : Nat) (acc : List Str) (comp : Str) : List Str :=
  if comp = [] ∨ comp = ['.'] then acc
  else if comp ≠ ['.', '.'] ∨ (slashes = 0 ∧ acc = []) ∨
      (acc ≠ [] ∧ acc.getLast? = some ['.', '.']) then acc ++ [comp]
  else acc.dropLast

/-- `'/'.join(comps)`. -/
def intercalateSlash : List Str → Str
  | [] => []
  | [x] => x
  | x :: y :: rest => x ++ '/' :: intercalateSlash (y :: rest)

/-- `os.path.normpath(p)` for POSIX paths. -/
def osNormpath (p : Str) : Str :=
  if p = [] then ['.']
  else
    let slashes : Nat :=
      if startsWithSlash p then
        if List.isPrefixOf ['/', '/'] p && !(List.isPrefixOf ['/', '/', '/'] p) then 2 else 1
      else 0
    let comps := (splitSlash p).foldl (normStep slashes) []
    let res := List.replicate slashes '/' ++ intercalateSlash comps
    if res = [] then ['.'] else res

/-- `os.path.abspath(p)`: join onto the working directory when relative,
then normalize. -/
def osAbspath (cwd p : Str) : Str :=
  if startsWithSlash p then osNormpath p else osNormpath (osJoin cwd p)

/-- Resolution of a path against the ambient working directory, as the
operating system does for every relative path handed to a syscall. -/
def resolvePath (cwd p : Str) : Str :=
  if startsWithSlash p then p else osJoin cwd p

/-- Zero-padded fixed-width decimal rendering, the behaviour of `strftime`'s
numeric directives for in-range values (`n < 10 ^ w`). -/
def padNum : Nat → Nat → Str
  | 0, _ => []
  | w + 1, n => padNum w (n / 10) ++ [Char.ofNat (48 + n % 10)]

/-- A wall-clock instant, the part of `datetime.datetime` the script reads. -/
structure DateTime where
  year : Nat
  month : Nat
  day : Nat
  hour : Nat
  minute : Nat
  second : Nat
deriving DecidableEq, Repr

/-- `now.strftime("%Y%m%d_%H%M%S")`. -/
def strftimeTS (t : DateTime) : Str :=
  padNum 4 t.year ++ padNum 2 t.month ++ padNum 2 t.day ++
    '_' :: (padNum 2 t.hour ++ padNum 2 t.minute ++ padNum 2 t.second)

/-- The regular expression `\d{8}_\d{6}` as a whole-string check. -/
def matchesTS (s : Str) : Bool :=
  s.length = 15 && (s.take 8).all (·.isDigit) && ((s.drop 8).head? = some '_')
    && (s.drop 9).all (·.isDigit)

/-- A calendar-valid instant (what `datetime.datetime.now()` can return). -/
def ValidDT (t : DateTime) : Prop :=
  1 ≤ t.year ∧ t.year ≤ 9999 ∧ 1 ≤ t.month ∧ t.month ≤ 12 ∧
    1 ≤ t.day ∧ t.day ≤ 31 ∧ t.hour ≤ 23 ∧ t.minute ≤ 59 ∧ t.second ≤ 59

instance (t : DateTime) : Decidable (ValidDT t) := by
  unfold ValidDT; infer_instance

/-- Python truthiness of an optional string (`None`/`False` and the empty
string are falsy; the script's `--reason` default `False` is `none` here). -/
def optTruthy : Option Str → Bool
  | none => false
  | some s => !s.isEmpty

/-- Contents of a regular file: either text bytes, or a bzip2-compressed tar
archive at a given compression level holding named entries. -/
inductive Content where
  | text : Str → Content
  | tarbz2 : Nat → List (Str × Content) → Content

instance : Inhabited Content := ⟨.text []⟩

/-- One recorded invocation of the external `pg_dump` program. -/
structure DumpCall where
  db : Str
  noOwner : Bool
  file : Str
deriving DecidableEq, Repr

/-- Filesystem state: regular files (newest binding first), directories, and
the trace of external dump invocations. -/
structure St where
  files : List (Str × Content)
  dirs : List Str
  calls : List DumpCall

/-- First-match association lookup among the regular files. -/
def lookupF : List (Str × Content) → Str → Option Content
  | [], _ => none
  | (p, c) :: rest, q => if p = q then some c else lookupF rest q

/-- Drop every binding of a path. -/
def removeKey : List (Str × Content) → Str → List (Str × Content)
  | [], _ => []
  | (p, c) :: rest, q => if p = q then removeKey rest q else (p, c) :: removeKey rest q

/-- Create or overwrite a regular file. -/
def St.setFile (st : St) (p : Str) (c : Content) : St :=
  { st with files := (p, c) :: st.files }

/-- `os.remove` on an existing regular file. -/
def St.removeFile (st : St) (p : Str) : St :=
  { st with files := removeKey st.files p }

/-- Is `q` the path `r` itself or strictly inside the tree rooted at `r`? -/
def underB (r q : Str) : Bool := q == r || (r ++ ['/']).isPrefixOf q

/-- `shutil.rmtree r`: the directory and everything beneath it disappears. -/
def St.rmtree (st : St) (r : Str) : St :=
  { st with
      files := st.files.filter (fun e => !underB r e.1),
      dirs := st.dirs.filter (fun d => !underB r d) }

/-- `os.path.isfile` on a resolved path. -/
def St.isFile (st : St) (p : Str) : Bool := (lookupF st.files p).isSome

/-- `os.path.isdir` on a resolved path. -/
def St.isDir (st : St) (p : Str) : Bool := st.dirs.contains p

/-- `os.listdir d` (for resolved `d`): base names of the entries directly
inside `d`, files first, in representation order. -/
def St.listdir (st : St) (d : Str) : List Str :=
  (((st.files.map Prod.fst) ++ st.dirs).filter (fun p => osDirname p = d)).map osBasename

/-- Content of an existing file (default padding for the total function). -/
def contentAt (st : St) (p : Str) : Content := (lookupF st.files p).getD (.text [])

/-- Well-formed state: no path is simultaneously a regular file and a
directory (always true of a real filesystem). -/
def St.WF (st : St) : Prop := ∀ p ∈ st.files.map Prod.fst, p ∉ st.dirs

instance (st : St) : Decidable st.WF := by
  unfold St.WF; infer_instance

/-- Faults the modelled operations can raise. -/
inductive PyErr where
  | fileNotFound : Str → PyErr
  | ioError : Str → PyErr
  | externalToolError : Str → PyErr
deriving DecidableEq, Repr

/-- One iteration of `clean_files`' loop:
`if os.path.isfile(f): os.remove(f) elif os.path.isdir(f): shutil.rmtree(f)`. -/
def cleanStep (cwd : Str) (st : St) (fname : Str) : St :=
  let rp := resolvePath cwd fname
  if st.isFile rp then st.removeFile rp
  else if st.isDir rp then st.rmtree rp
  else st

/-- `clean_files(files)` from `e_backup.py`: delete each listed path, files
by `os.remove`, directories by `shutil.rmtree`, silently skipping paths that
are neither.  It raises nothing. -/
def clean_files (cwd : Str) (files : List Str) (st : St) : St :=
  files.foldl (cleanStep cwd) st

/-- The `tar_bz2_file.add(fname, os.path.join(name, os.path.basename(fname)))`
loop of `compress_files`: read each input (resolved against the working
directory) and store it under `name/<basename>`; a missing input raises. -/
def addEntries (cwd name : Str) (st : St) : List Str → Except PyErr (List (Str × Content))
  | [] => .ok []
  | f :: rest =>
    match lookupF st.files (resolvePath cwd f) with
    | none => .error (.fileNotFound f)
    | some c =>
      match addEntries cwd name st rest with
      | .ok es => .ok ((osJoin name (osBasename f), c) :: es)
      | .error e => .error e

/-- `compress_files(name, files, dest_folder)` from `e_backup.py`.
A falsy destination defaults to `"."`.  Opening `bz2.BZ2File(full_name, 'w')`
requires the parent directory to exist and truncates/creates the archive file
before any input is read; the entries are then written with compression
level 9 and the (possibly relative) archive path is returned. -/
def compress_files (cwd name : Str) (files : List Str) (destFolder : Option Str)
    (st : St) : Except (PyErr × St) (Str × St) :=
  let dest := match destFolder with
    | none => str "."
    | some d => if d.isEmpty then str "." else d
  let fullName := osJoin dest (name ++ str ".tar.bz2")
  let rp := resolvePath cwd fullName
  if st.isDir (osDirname rp) then
    let st1 := st.setFile rp (.tarbz2 9 [])
    match addEntries cwd name st1 files with
    | .ok es => .ok (fullName, st1.setFile rp (.tarbz2 9 es))
    | .error e => .error (e, st1)
  else .error (.ioError fullName, st)

/-- The external dump program, a black box: the oracle says whether this
invocation succeeds and what dump text it writes.  The invocation itself is
recorded; on success the dump file is (over)written at the requested path. -/
def pgDump (oracle : Bool × Str) (cwd dbName : Str) (noOwner : Bool) (file : Str)
    (st : St) : Except (PyErr × St) St :=
  let st1 := { st with calls := st.calls ++ [⟨dbName, noOwner, file⟩] }
  if oracle.1 then .ok (st1.setFile (resolvePath cwd file) (.text oracle.2))
  else .error (.externalToolError dbName, st1)

/-- `dump_database(dest_folder, database_name)` from `e_backup.py`:
`pg_dump(database_name, no_owner=True, file=os.path.join(dest_folder,
"database_dump.sql"))`, returning the dump path. -/
def dump_database (oracle : Bool × Str) (cwd destFolder dbName : Str)
    (st : St) : Except (PyErr × St) (Str × St) :=
  let dumpName := osJoin destFolder (str "database_dump.sql")
  match pgDump oracle cwd dbName true dumpName st with
  | .ok st1 => .ok (dumpName, st1)
  | .error es => .error es

/-- The archive base-name computation of `backup_database` (lines 123-130):
`db_sql_reason_timestamp` when the reason is truthy, `db_sql_timestamp`
otherwise. -/
def backupFileName (dbName : Str) (reason : Option Str) (now : DateTime) : Str :=
  if optTruthy reason then
    dbName ++ str "_" ++ str "sql" ++ str "_" ++ reason.getD [] ++ str "_" ++ strftimeTS now
  else
    dbName ++ str "_" ++ str "sql" ++ str "_" ++ strftimeTS now

/-- `backup_database(database_name, dest_folder, reason=False, tmp_dir="/tmp")`
from `e_backup.py`: dump, archive `[os.path.join(tmp_dir, dbase)]`, clean the
same list, and return `os.path.abspath(full_name)`. -/
def backup_database (oracle : Bool × Str) (cwd dbName destFolder : Str)
    (reason : Option Str) (now : DateTime) (st : St) (tmpDir : Str := str "/tmp") :
    Except (PyErr × St) (Str × St) :=
  let fileName := backupFileName dbName reason now
  match dump_database oracle cwd tmpDir dbName st with
  | .error es => .error es
  | .ok (dbase, st1) =>
    let files := [osJoin tmpDir dbase]
    match compress_files cwd fileName files (some destFolder) st1 with
    | .error es => .error es
    | .ok (fullName, st2) =>
      let st3 := clean_files cwd files st2
      .ok (osAbspath cwd fullName, st3)

/-- `shutil.copy(src, dst)`: read the source (resolved against the working
directory; missing source raises), then write its content at the destination
(into the destination directory when `dst` is a directory); the destination's
parent directory must exist. -/
def shutilCopy (cwd src dst : Str) (st : St) : Except (PyErr × St) St :=
  let rsrc := resolvePath cwd src
  match lookupF st.files rsrc with
  | none => .error (.fileNotFound src, st)
  | some c =>
    let rd0 := resolvePath cwd dst
    let rdst := if st.isDir rd0 then osJoin rd0 (osBasename src) else rd0
    if st.isDir (osDirname rdst) then .ok (st.setFile rdst c)
    else .error (.ioError dst, st)

/-- First loop of `move_files`:
`shutil.copy(each, os.path.join(to_dir, os.path.basename(each)))` — note the
source is the bare listing entry `each`, not joined with the origin. -/
def copyLoop (cwd toDir : Str) : List Str → St → Except (PyErr × St) St
  | [], st => .ok st
  | each :: rest, st =>
    match shutilCopy cwd each (osJoin toDir (osBasename each)) st with
    | .ok st1 => copyLoop cwd toDir rest st1
    | .error es => .error es

/-- Second loop of `move_files`: `os.remove(each)` on each bare listing
entry; `os.remove` raises on a missing path or a directory. -/
def removeLoop (cwd : Str) : List Str → St → Except (PyErr × St) St
  | [], st => .ok st
  | each :: rest, st =>
    let rp := resolvePath cwd each
    if st.isFile rp then removeLoop cwd rest (st.removeFile rp)
    else .error (.fileNotFound each, st)

/-- `move_files(from_dir, to_dir)` from `e_backup.py`: list the origin, copy
each listed (bare) name into the destination, then list the origin again and
remove each listed (bare) name. -/
def move_files (cwd fromDir toDir : Str) (st : St) : Except (PyErr × St) St :=
  let rfrom := resolvePath cwd fromDir
  if st.isDir rfrom then
    match copyLoop cwd toDir (st.listdir rfrom) st with
    | .error es => .error es
    | .ok st1 =>
      match removeLoop cwd (st1.listdir rfrom) st1 with
      | .ok st2 => .ok st2
      | .error es => .error es
  else .error (.fileNotFound fromDir, st)

/-- The `if __name__ == '__main__'` block of `e_backup.py`: when a database
name is given (truthy), run the backup inside a catch-all that logs and
swallows any exception; then, when `--move` was given, run `move_files`
outside any exception boundary. -/
def mainRun (oracle : Bool × Str) (cwd : Str) (dbs : Option Str) (move : Bool)
    (backupDir originDir : Str) (reason : Option Str) (now : DateTime)
    (st : St) : Except (PyErr × St) St :=
  let st1 :=
    if optTruthy dbs then
      match backup_database oracle cwd (dbs.getD []) backupDir reason now st with
      | .ok (_, st2) => st2
      | .error (_, st2) => st2
    else st
  if move then move_files cwd originDir backupDir st1 else .ok st1

/-! ### Path-string toolbox -/

theorem ne_nil_of_startsWithSlash {a : Str} (h : startsWithSlash a = true) : a ≠ [] := by
  intro hn; subst hn; simp [startsWithSlash] at h

theorem startsWithSlash_append_left {a : Str} (b : Str) (h : startsWithSlash a = true) :
    startsWithSlash (a ++ b) = true := by
  cases a with
  | nil => simp [startsWithSlash] at h
  | cons c cs => simpa [startsWithSlash] using h

theorem startsWithSlash_append_no {a b : Str} (ha : '/' ∉ a) (hb : startsWithSlash b = false) :
    startsWithSlash (a ++ b) = false := by
  cases a with
  | nil => simpa using hb
  | cons c cs =>
    have hc : c ≠ '/' := fun he => ha (he ▸ List.mem_cons_self c cs)
    simpa [startsWithSlash] using hc

theorem getLast?_append_right {a b : Str} (h : b ≠ []) :
    (a ++ b).getLast? = b.getLast? := by
  rw [List.getLast?_append]
  cases b with
  | nil => exact absurd rfl h
  | cons x xs => simp [List.getLast?_cons]

theorem endsWithSlash_append {a b : Str} (h : b ≠ []) :
    endsWithSlash (a ++ b) = endsWithSlash b := by
  simp [endsWithSlash, getLast?_append_right h]

theorem osJoin_abs {b : Str} (a : Str) (h : startsWithSlash b = true) : osJoin a b = b := by
  simp [osJoin, h]

theorem osJoin_std {a b : Str} (hb : startsWithSlash b = false) (ha : a ≠ [])
    (ha2 : endsWithSlash a = false) : osJoin a b = a ++ '/' :: b := by
  simp [osJoin, hb, ha, ha2]

theorem osBasename_concat {a f : Str} (hf : '/' ∉ f) : osBasename (a ++ '/' :: f) = f := by
  induction a with
  | nil => simp [osBasename, hf]
  | cons c cs ih =>
    have hmem : '/' ∈ cs ++ '/' :: f := by simp
    simpa [osBasename, hmem] using ih

theorem beforeLast_concat {a f : Str} (hf : '/' ∉ f) :
    beforeLast (a ++ '/' :: f) = a ++ ['/'] := by
  induction a with
  | nil => simp [beforeLast, hf]
  | cons c cs ih =>
    have hmem : '/' ∈ cs ++ '/' :: f := by simp
    simpa [beforeLast, hmem] using ih

theorem rstripSlash_append_slash {a : Str} (h : endsWithSlash a = false) :
    rstripSlash (a ++ ['/']) = a := by
  have h2 : a.reverse.dropWhile (· = '/') = a.reverse := by
    cases hr : a.reverse with
    | nil => rfl
    | cons x xs =>
      have hx : x ≠ '/' := by
        intro hxe
        have hgl : a.getLast? = some '/' := by
          rw [← List.head?_reverse, hr, hxe]; rfl
        simp [endsWithSlash, hgl] at h
      simp [List.dropWhile, hx]
  unfold rstripSlash
  rw [List.reverse_append]
  simp only [List.reverse_cons, List.reverse_nil, List.nil_append, List.singleton_append]
  rw [show ('/' :: a.reverse).dropWhile (· = '/') = a.reverse.dropWhile (· = '/') by
    simp [List.dropWhile]]
  rw [h2, List.reverse_reverse]

theorem allSlash_append_slash (a : Str) : allSlash (a ++ ['/']) = allSlash a := by
  simp [allSlash, List.all_append]

theorem allSlash_eq_false {a : Str} (ha : a ≠ []) (h : endsWithSlash a = false) :
    allSlash a = false := by
  cases hr : a.reverse with
  | nil => exact absurd (by simpa using congrArg List.reverse hr) ha
  | cons x xs =>
    have hx : x ≠ '/' := by
      intro hxe
      have hgl : a.getLast? = some '/' := by
        rw [← List.head?_reverse, hr, hxe]; rfl
      simp [endsWithSlash, hgl] at h
    have hmem : x ∈ a := by
      have hm2 : x ∈ a.reverse := by rw [hr]; exact List.mem_cons_self x xs
      simpa using hm2
    unfold allSlash
    exact List.all_eq_false.mpr ⟨x, hmem, by simpa using hx⟩

theorem osDirname_concat {a f : Str} (ha : a ≠ []) (ha2 : endsWithSlash a = false)
    (hf : '/' ∉ f) : osDirname (a ++ '/' :: f) = a := by
  unfold osDirname
  rw [beforeLast_concat hf]
  have h1 : (a ++ ['/']).isEmpty = false := by
    cases a <;> simp [List.isEmpty]
  have h2 : allSlash (a ++ ['/']) = false := by
    rw [allSlash_append_slash]; exact allSlash_eq_false ha ha2
  simp only [h1, h2, Bool.not_false, Bool.and_self, if_pos]
  exact rstripSlash_append_slash ha2

theorem startsWithSlash_osNormpath {p : Str} (h : startsWithSlash p = true) :
    startsWithSlash (osNormpath p) = true := by
  have hp : p ≠ [] := ne_nil_of_startsWithSlash h
  unfold osNormpath
  rw [if_neg hp]
  simp only [h, if_true]
  by_cases h2 : List.isPrefixOf ['/', '/'] p && !(List.isPrefixOf ['/', '/', '/'] p)
  all_goals simp only [h2, if_true, if_false, Bool.false_eq_true]
  all_goals simp [List.replicate, startsWithSlash]

theorem startsWithSlash_osAbspath {p : Str} (cwd : Str) (h : startsWithSlash p = true) :
    startsWithSlash (osAbspath cwd p) = true := by
  unfold osAbspath
  rw [if_pos h]
  exact startsWithSlash_osNormpath h

/-! ### Timestamp toolbox -/

theorem length_padNum (w n : Nat) : (padNum w n).length = w := by
  induction w generalizing n with
  | zero => rfl
  | succ w ih => simp [padNum, ih]

theorem isDigit_of_mem_padNum {c : Char} {w n : Nat} (h : c ∈ padNum w n) :
    c.isDigit = true := by
  induction w generalizing n with
  | zero => simp [padNum] at h
  | succ w ih =>
    simp only [padNum, List.mem_append, List.mem_singleton] at h
    rcases h with h | h
    · exact ih h
    · subst h
      have h10 : n % 10 < 10 := Nat.mod_lt _ (by omega)
      interval_cases h : n % 10 <;> decide

theorem padNum_ne_nil {w : Nat} (n : Nat) (h : 0 < w) : padNum w n ≠ [] := by
  intro he
  have := length_padNum w n
  rw [he] at this
  simp at this
  omega

theorem ne_slash_of_mem_padNum {c : Char} {w n : Nat} (h : c ∈ padNum w n) : c ≠ '/' := by
  intro he
  have := isDigit_of_mem_padNum h
  rw [he] at this
  exact absurd this (by decide)

theorem ne_underscore_of_mem_padNum {c : Char} {w n : Nat} (h : c ∈ padNum w n) : c ≠ '_' := by
  intro he
  have := isDigit_of_mem_padNum h
  rw [he] at this
  exact absurd this (by decide)

theorem getLast?_padNum (w n : Nat) :
    (padNum (w + 1) n).getLast? = some (Char.ofNat (48 + n % 10)) := by
  simp [padNum, getLast?_append_right]

theorem strftimeTS_ne_nil (t : DateTime) : strftimeTS t ≠ [] := by
  unfold strftimeTS
  intro h
  have h2 := congrArg List.length h
  simp [List.length_append, length_padNum] at h2

theorem noSlash_strftimeTS (t : DateTime) : '/' ∉ strftimeTS t := by
  unfold strftimeTS
  intro h
  rcases List.mem_append.mp h with h | h
  · rcases List.mem_append.mp h with h | h
    · rcases List.mem_append.mp h with h | h
      · exact ne_slash_of_mem_padNum h rfl
      · exact ne_slash_of_mem_padNum h rfl
    · exact ne_slash_of_mem_padNum h rfl
  · rcases List.mem_cons.mp h with h | h
    · exact absurd h (by decide)
    · rcases List.mem_append.mp h with h | h
      · rcases List.mem_append.mp h with h | h
        · exact ne_slash_of_mem_padNum h rfl
        · exact ne_slash_of_mem_padNum h rfl
      · exact ne_slash_of_mem_padNum h rfl

theorem mem_of_getLast?_eq {l : Str} {x : Char} (h : l.getLast? = some x) : x ∈ l := by
  cases hr : l.reverse with
  | nil =>
    have hl : l = [] := by simpa using congrArg List.reverse hr
    subst hl; simp at h
  | cons y ys =>
    have hy : l.getLast? = some y := by rw [← List.head?_reverse, hr]; rfl
    have hxy : x = y := by rw [hy] at h; exact (Option.some.inj h).symm
    subst hxy
    have hm : x ∈ l.reverse := by rw [hr]; exact List.mem_cons_self x ys
    simpa using hm

theorem endsWithSlash_of_noSlash {l : Str} (h : '/' ∉ l) : endsWithSlash l = false := by
  unfold endsWithSlash
  cases hg : l.getLast? with
  | none => simp
  | some x =>
    have hx : x ∈ l := mem_of_getLast?_eq hg
    have hne : x ≠ '/' := fun he => h (he ▸ hx)
    simpa using hne

theorem endsWithSlash_strftimeTS (t : DateTime) : endsWithSlash (strftimeTS t) = false :=
  endsWithSlash_of_noSlash (noSlash_strftimeTS t)

theorem matchesTS_strftimeTS (t : DateTime) : matchesTS (strftimeTS t) = true := by
  unfold strftimeTS matchesTS
  have hA : (padNum 4 t.year ++ padNum 2 t.month ++ padNum 2 t.day).length = 8 := by
    simp [List.length_append, length_padNum]
  set A := padNum 4 t.year ++ padNum 2 t.month ++ padNum 2 t.day with hAdef
  set B := padNum 2 t.hour ++ padNum 2 t.minute ++ padNum 2 t.second with hBdef
  have hB : B.length = 6 := by
    simp [hBdef, List.length_append, length_padNum]
  have hlen : (A ++ '_' :: B).length = 15 := by
    simp [List.length_append, hA, hB]
  have htake : (A ++ '_' :: B).take 8 = A := by
    rw [← hA]; exact List.take_left A ('_' :: B)
  have hdrop : (A ++ '_' :: B).drop 8 = '_' :: B := by
    rw [← hA]; exact List.drop_left A ('_' :: B)
  have hdrop9 : (A ++ '_' :: B).drop 9 = B := by
    rw [show 9 = 8 + 1 by rfl, ← List.drop_drop, hdrop]
    rfl
  have hdigA : A.all (·.isDigit) = true := by
    rw [List.all_eq_true]
    intro c hc
    simp only [hAdef, List.mem_append] at hc
    rcases hc with (hc | hc) | hc <;> simpa using isDigit_of_mem_padNum hc
  have hdigB : B.all (·.isDigit) = true := by
    rw [List.all_eq_true]
    intro c hc
    simp only [hBdef, List.mem_append] at hc
    rcases hc with (hc | hc) | hc <;> simpa using isDigit_of_mem_padNum hc
  simp [hlen, htake, hdrop, hdrop9, hdigA, hdigB]

/-! ### State toolbox -/

theorem startsWithSlash_of_noSlash {l : Str} (h : '/' ∉ l) : startsWithSlash l = false := by
  cases l with
  | nil => rfl
  | cons c cs =>
    have hc : c ≠ '/' := fun he => h (he ▸ List.mem_cons_self c cs)
    simpa [startsWithSlash] using hc

theorem lookupF_removeKey_self (fs : List (Str × Content)) (p : Str) :
    lookupF (removeKey fs p) p = none := by
  induction fs with
  | nil => rfl
  | cons e rest ih =>
    obtain ⟨q, c⟩ := e
    by_cases h : q = p
    · simpa [removeKey, h] using ih
    · simpa [removeKey, lookupF, h] using ih

theorem lookupF_removeKey_other {q p : Str} (fs : List (Str × Content)) (h : q ≠ p) :
    lookupF (removeKey fs p) q = lookupF fs q := by
  induction fs with
  | nil => rfl
  | cons e rest ih =>
    obtain ⟨r, c⟩ := e
    by_cases h2 : r = p
    · subst h2
      have h3 : ¬(r = q) := fun he => h he.symm
      simp [removeKey, lookupF, h3, ih]
    · by_cases h3 : r = q
      · subst h3; simp [removeKey, h2, lookupF]
      · simp [removeKey, h2, lookupF, h3, ih]

/-! ### Archive base-name toolbox -/

theorem backupFileName_falsy (db : Str) (reason : Option Str) (now : DateTime)
    (h : optTruthy reason = false) :
    backupFileName db reason now = db ++ str "_sql_" ++ strftimeTS now := by
  simp [backupFileName, h, str]

theorem backupFileName_truthy (db : Str) (reason : Option Str) (now : DateTime)
    (h : optTruthy reason = true) :
    backupFileName db reason now =
      db ++ str "_sql_" ++ reason.getD [] ++ str "_" ++ strftimeTS now := by
  simp [backupFileName, h, str]

theorem noSlash_backupFileName {db : Str} {reason : Option Str} (now : DateTime)
    (hdb : '/' ∉ db) (hr : '/' ∉ reason.getD []) :
    '/' ∉ backupFileName db reason now := by
  intro h
  by_cases ht : optTruthy reason = true
  · rw [backupFileName_truthy db reason now ht] at h
    rcases List.mem_append.mp h with h | h
    · rcases List.mem_append.mp h with h | h
      · rcases List.mem_append.mp h with h | h
        · rcases List.mem_append.mp h with h | h
          · exact hdb h
          · exact absurd h (by decide)
        · exact hr h
      · exact absurd h (by decide)
    · exact noSlash_strftimeTS now h
  · rw [backupFileName_falsy db reason now (by simpa using ht)] at h
    rcases List.mem_append.mp h with h | h
    · rcases List.mem_append.mp h with h | h
      · exact hdb h
      · exact absurd h (by decide)
    · exact noSlash_strftimeTS now h

theorem noSlash_archiveName {db : Str} {reason : Option Str} (now : DateTime)
    (hdb : '/' ∉ db) (hr : '/' ∉ reason.getD []) :
    '/' ∉ backupFileName db reason now ++ str ".tar.bz2" := by
  intro h
  rcases List.mem_append.mp h with h | h
  · exact noSlash_backupFileName now hdb hr h
  · exact absurd h (by decide)

theorem archiveName_ne_nil (db : Str) (reason : Option Str) (now : DateTime) :
    backupFileName db reason now ++ str ".tar.bz2" ≠ [] := by
  intro h
  have h2 := congrArg List.length h
  simp [str] at h2

theorem getLast?_archiveName (db : Str) (reason : Option Str) (now : DateTime) :
    (backupFileName db reason now ++ str ".tar.bz2").getLast? = some '2' := by
  rw [getLast?_append_right (by simp [str])]
  decide

/-! ### Success-path characterizations -/

theorem addEntries_ok {cwd name : Str} {st : St} {l : List Str}
    (h : ∀ f ∈ l, (lookupF st.files (resolvePath cwd f)).isSome = true) :
    addEntries cwd name st l =
      .ok (l.map fun f => (osJoin name (osBasename f), contentAt st (resolvePath cwd f))) := by
  induction l with
  | nil => rfl
  | cons f rest ih =>
    have hf := h f (List.mem_cons_self f rest)
    obtain ⟨c, hc⟩ := Option.isSome_iff_exists.mp hf
    simp only [addEntries, hc, ih (fun g hg => h g (List.mem_cons_of_mem f hg)), List.map_cons]
    simp [contentAt, hc]

theorem compress_files_ok {cwd name dest : Str} {files : List Str} {st : St}
    (hdne : dest ≠ [])
    (hdir : st.isDir (osDirname (resolvePath cwd (osJoin dest (name ++ str ".tar.bz2")))) = true)
    (hin : ∀ f ∈ files,
      (lookupF ((st.setFile (resolvePath cwd (osJoin dest (name ++ str ".tar.bz2")))
        (.tarbz2 9 [])).files) (resolvePath cwd f)).isSome = true) :
    compress_files cwd name files (some dest) st =
      .ok (osJoin dest (name ++ str ".tar.bz2"),
        (st.setFile (resolvePath cwd (osJoin dest (name ++ str ".tar.bz2"))) (.tarbz2 9 [])).setFile
          (resolvePath cwd (osJoin dest (name ++ str ".tar.bz2")))
          (.tarbz2 9 (files.map fun f => (osJoin name (osBasename f),
            contentAt (st.setFile (resolvePath cwd (osJoin dest (name ++ str ".tar.bz2")))
              (.tarbz2 9 [])) (resolvePath cwd f))))) := by
  have hde : dest.isEmpty = false := by
    cases dest with
    | nil => exact absurd rfl hdne
    | cons c cs => rfl
  unfold compress_files
  simp only [hde, Bool.false_eq_true, if_false, hdir, if_true]
  rw [addEntries_ok hin]

theorem setFile_dirs (st : St) (p : Str) (c : Content) : (St.setFile st p c).dirs = st.dirs := rfl

theorem removeFile_dirs (st : St) (p : Str) : (St.removeFile st p).dirs = st.dirs := rfl

theorem backup_database_ok {oracle : Bool × Str} {cwd db dest : Str} {reason : Option Str}
    {now : DateTime} {st : St}
    (ho : oracle.1 = true)
    (hdb : '/' ∉ db) (hr : '/' ∉ reason.getD [])
    (hd1 : startsWithSlash dest = true) (hd2 : endsWithSlash dest = false)
    (hdir : st.isDir dest = true) :
    ∃ st4,
      backup_database oracle cwd db dest reason now st =
        .ok (osAbspath cwd (osJoin dest (backupFileName db reason now ++ str ".tar.bz2")), st4) ∧
      lookupF st4.files (osJoin dest (backupFileName db reason now ++ str ".tar.bz2")) =
        some (.tarbz2 9 [(osJoin (backupFileName db reason now) (str "database_dump.sql"),
          .text oracle.2)]) ∧
      lookupF st4.files (str "/tmp/database_dump.sql") = none ∧
      st4.dirs = st.dirs ∧
      (∀ q, q ≠ osJoin dest (backupFileName db reason now ++ str ".tar.bz2") →
        q ≠ str "/tmp/database_dump.sql" → lookupF st4.files q = lookupF st.files q) := by
  have hdj : osJoin (str "/tmp") (str "database_dump.sql") = str "/tmp/database_dump.sql" := by
    decide
  have hdj2 : osJoin (str "/tmp") (str "/tmp/database_dump.sql") =
      str "/tmp/database_dump.sql" := by decide
  have hrj : resolvePath cwd (str "/tmp/database_dump.sql") = str "/tmp/database_dump.sql" := by
    unfold resolvePath
    rw [if_pos (by decide)]
  have hnsl : '/' ∉ backupFileName db reason now ++ str ".tar.bz2" :=
    noSlash_archiveName now hdb hr
  have hfn0 : startsWithSlash (backupFileName db reason now ++ str ".tar.bz2") = false :=
    startsWithSlash_of_noSlash hnsl
  have hdne : dest ≠ [] := ne_nil_of_startsWithSlash hd1
  have hjoin : osJoin dest (backupFileName db reason now ++ str ".tar.bz2") =
      dest ++ '/' :: (backupFileName db reason now ++ str ".tar.bz2") :=
    osJoin_std hfn0 hdne hd2
  have habs : startsWithSlash (osJoin dest (backupFileName db reason now ++ str ".tar.bz2")) =
      true := by
    rw [hjoin]
    exact startsWithSlash_append_left _ hd1
  have hres : resolvePath cwd (osJoin dest (backupFileName db reason now ++ str ".tar.bz2")) =
      osJoin dest (backupFileName db reason now ++ str ".tar.bz2") := by
    unfold resolvePath
    rw [if_pos habs]
  have hdirn : osDirname (osJoin dest (backupFileName db reason now ++ str ".tar.bz2")) =
      dest := by
    rw [hjoin]
    exact osDirname_concat hdne hd2 hnsl
  have hne : osJoin dest (backupFileName db reason now ++ str ".tar.bz2") ≠
      str "/tmp/database_dump.sql" := by
    intro he
    have h1 := getLast?_archiveName db reason now
    have h2 : (osJoin dest (backupFileName db reason now ++ str ".tar.bz2")).getLast? =
        some '2' := by
      rw [hjoin, show ('/' :: (backupFileName db reason now ++ str ".tar.bz2")) =
        ['/'] ++ (backupFileName db reason now ++ str ".tar.bz2") from rfl,
        getLast?_append_right (by simp),
        getLast?_append_right (archiveName_ne_nil db reason now)]
      exact h1
    rw [he] at h2
    exact absurd h2 (by decide)
  have hne2 : resolvePath cwd (osJoin dest (backupFileName db reason now ++ str ".tar.bz2")) ≠
      str "/tmp/database_dump.sql" := by rw [hres]; exact hne
  have hbase : osBasename (str "/tmp/database_dump.sql") = str "database_dump.sql" := by decide
  have hcontent : contentAt ((({ st with calls := st.calls ++
      [⟨db, true, str "/tmp/database_dump.sql"⟩] } : St).setFile (str "/tmp/database_dump.sql")
      (.text oracle.2)).setFile
      (resolvePath cwd (osJoin dest (backupFileName db reason now ++ str ".tar.bz2")))
      (.tarbz2 9 [])) (str "/tmp/database_dump.sql") = .text oracle.2 := by
    simp only [contentAt, St.setFile, lookupF]
    simp only [if_neg hne2]
    simp
  refine ⟨(((({ st with calls := st.calls ++ [⟨db, true, str "/tmp/database_dump.sql"⟩] } :
      St).setFile (str "/tmp/database_dump.sql") (.text oracle.2)).setFile
      (resolvePath cwd (osJoin dest (backupFileName db reason now ++ str ".tar.bz2")))
      (.tarbz2 9 [])).setFile
      (resolvePath cwd (osJoin dest (backupFileName db reason now ++ str ".tar.bz2")))
      (.tarbz2 9 [(osJoin (backupFileName db reason now) (str "database_dump.sql"),
        .text oracle.2)])).removeFile (str "/tmp/database_dump.sql"), ?_, ?_, ?_, ?_, ?_⟩
  case _ =>
    unfold backup_database dump_database pgDump
    simp only [ho, if_true, hdj, hdj2, hrj]
    rw [compress_files_ok hdne (by rw [hres, hdirn]; exact hdir) ?hin]
    case hin =>
      intro f hf
      rw [List.mem_singleton] at hf
      subst hf
      rw [hrj]
      simp only [St.setFile, lookupF]
      simp only [if_neg hne2]
      simp
    simp only [List.map_cons, List.map_nil, hrj, hbase, hcontent, clean_files, List.foldl,
      cleanStep]
    have hisf : (((({ st with calls := st.calls ++ [⟨db, true, str "/tmp/database_dump.sql"⟩] } :
        St).setFile (str "/tmp/database_dump.sql") (.text oracle.2)).setFile
        (resolvePath cwd (osJoin dest (backupFileName db reason now ++ str ".tar.bz2")))
        (.tarbz2 9 [])).setFile
        (resolvePath cwd (osJoin dest (backupFileName db reason now ++ str ".tar.bz2")))
        (.tarbz2 9 [(osJoin (backupFileName db reason now) (str "database_dump.sql"),
          .text oracle.2)])).isFile (str "/tmp/database_dump.sql") = true := by
      simp only [St.isFile, St.setFile, lookupF]
      simp only [if_neg hne2]
      simp
    rw [if_pos hisf]
  case _ =>
    simp only [St.removeFile, St.setFile]
    rw [lookupF_removeKey_other _ hne]
    simp only [lookupF, hres]
    simp
  case _ =>
    simp only [St.removeFile, St.setFile]
    rw [lookupF_removeKey_self]
  case _ => rfl
  case _ =>
    intro q hq1 hq2
    simp only [St.removeFile, St.setFile]
    rw [lookupF_removeKey_other _ hq2]
    simp only [lookupF]
    have hq3 : ¬(resolvePath cwd (osJoin dest (backupFileName db reason now ++ str ".tar.bz2"))
        = q) := by rw [hres]; exact fun he => hq1 he.symm
    rw [if_neg hq3, if_neg hq3, if_neg (fun he => hq2 he.symm)]

theorem startsWithSlash_osJoin_left {a : Str} (b : Str) (ha : startsWithSlash a = true) :
    startsWithSlash (osJoin a b) = true := by
  unfold osJoin
  split
  · assumption
  · split
    · exact startsWithSlash_append_left b ha
    · exact startsWithSlash_append_left ('/' :: b) ha

/-! ### Claim theorems -/

/-- C1: for every database name, destination directory and optional reason,
when the external dump succeeds, `backup_database` returns the absolute path
(`os.path.abspath`, an absolute path whenever the working directory is, and
here unconditionally since the destination is absolute) of an archive created
at `<dest_folder>/<base>.tar.bz2`, whose base name is
`<database>_sql_<reason>_<timestamp>` when a reason is given and
`<database>_sql_<timestamp>` otherwise, the timestamp being the current local
time formatted `YYYYMMDD_HHMMSS`, which matches `\d{8}_\d{6}`. -/
theorem C1_backup_database_archive {oracle : Bool × Str} {cwd db dest : Str}
    {reason : Option Str} {now : DateTime} {st : St}
    (ho : oracle.1 = true)
    (_hv : ValidDT now)
    (hdb : '/' ∉ db) (hr : '/' ∉ reason.getD [])
    (hd1 : startsWithSlash dest = true) (hd2 : endsWithSlash dest = false)
    (hdir : st.isDir dest = true) :
    ∃ st4,
      backup_database oracle cwd db dest reason now st =
        .ok (osAbspath cwd (osJoin dest (backupFileName db reason now ++ str ".tar.bz2")),
          st4) ∧
      lookupF st4.files (osJoin dest (backupFileName db reason now ++ str ".tar.bz2")) =
        some (.tarbz2 9 [(osJoin (backupFileName db reason now) (str "database_dump.sql"),
          .text oracle.2)]) ∧
      (optTruthy reason = true →
        backupFileName db reason now =
          db ++ str "_sql_" ++ reason.getD [] ++ str "_" ++ strftimeTS now) ∧
      (optTruthy reason = false →
        backupFileName db reason now = db ++ str "_sql_" ++ strftimeTS now) ∧
      matchesTS (strftimeTS now) = true ∧
      startsWithSlash
        (osAbspath cwd (osJoin dest (backupFileName db reason now ++ str ".tar.bz2"))) =
          true := by
  obtain ⟨st4, heq, harch, hclean, hdirs, hframe⟩ := backup_database_ok ho hdb hr hd1 hd2 hdir
  exact ⟨st4, heq, harch, fun ht => backupFileName_truthy db reason now ht,
    fun hf => backupFileName_falsy db reason now hf, matchesTS_strftimeTS now,
    startsWithSlash_osAbspath cwd (startsWithSlash_osJoin_left _ hd1)⟩

/-- Witness for C1 at a concrete input (the spec's own concrete scenario). -/
theorem C1_witness :
    ∃ st4,
      backup_database (true, str "D") (str "/w") (str "orders") (str "/backups")
          (some (str "prerelease")) ⟨2024, 3, 1, 10, 15, 30⟩
          ⟨[], [str "/backups"], []⟩ =
        .ok (osAbspath (str "/w") (osJoin (str "/backups")
          (backupFileName (str "orders") (some (str "prerelease")) ⟨2024, 3, 1, 10, 15, 30⟩ ++
            str ".tar.bz2")), st4) ∧
      lookupF st4.files (osJoin (str "/backups")
          (backupFileName (str "orders") (some (str "prerelease")) ⟨2024, 3, 1, 10, 15, 30⟩ ++
            str ".tar.bz2")) =
        some (.tarbz2 9 [(osJoin (backupFileName (str "orders") (some (str "prerelease"))
          ⟨2024, 3, 1, 10, 15, 30⟩) (str "database_dump.sql"), .text (str "D"))]) ∧
      (optTruthy (some (str "prerelease")) = true →
        backupFileName (str "orders") (some (str "prerelease")) ⟨2024, 3, 1, 10, 15, 30⟩ =
          str "orders" ++ str "_sql_" ++ (some (str "prerelease")).getD [] ++ str "_" ++
            strftimeTS ⟨2024, 3, 1, 10, 15, 30⟩) ∧
      (optTruthy (some (str "prerelease")) = false →
        backupFileName (str "orders") (some (str "prerelease")) ⟨2024, 3, 1, 10, 15, 30⟩ =
          str "orders" ++ str "_sql_" ++ strftimeTS ⟨2024, 3, 1, 10, 15, 30⟩) ∧
      matchesTS (strftimeTS ⟨2024, 3, 1, 10, 15, 30⟩) = true ∧
      startsWithSlash (osAbspath (str "/w") (osJoin (str "/backups")
        (backupFileName (str "orders") (some (str "prerelease")) ⟨2024, 3, 1, 10, 15, 30⟩ ++
          str ".tar.bz2"))) = true :=
  C1_backup_database_archive rfl (by decide) (by decide) (by decide) (by decide) (by decide)
    (by decide)

/-- C10: `backup_database` treats any falsy reason — the default `False`
(here `none`) or the empty string — as "no reason": the whole call behaves
identically for both, the archive base name is then `<db>_sql_<timestamp>`,
and only a non-empty reason string is embedded into the name. -/
theorem C10_falsy_reason (oracle : Bool × Str) (cwd db dest : Str) (now : DateTime)
    (st : St) (tmpDir : Str) :
    (backup_database oracle cwd db dest (some []) now st tmpDir =
      backup_database oracle cwd db dest none now st tmpDir) ∧
    backupFileName db (some []) now = db ++ str "_sql_" ++ strftimeTS now ∧
    backupFileName db none now = db ++ str "_sql_" ++ strftimeTS now ∧
    (∀ s : Str, s ≠ [] →
      backupFileName db (some s) now = db ++ str "_sql_" ++ s ++ str "_" ++ strftimeTS now) := by
  have hbn : backupFileName db (some []) now = backupFileName db none now := by
    simp [backupFileName, optTruthy]
  refine ⟨?_, ?_, ?_, ?_⟩
  · unfold backup_database
    rw [hbn]
  · rw [hbn]
    exact backupFileName_falsy db none now rfl
  · exact backupFileName_falsy db none now rfl
  · intro s hs
    have ht : optTruthy (some s) = true := by
      unfold optTruthy
      cases s with
      | nil => exact absurd rfl hs
      | cons c cs => rfl
    simpa using backupFileName_truthy db (some s) now ht

/-- Witness for C10 at concrete inputs. -/
theorem C10_witness :
    backup_database (true, str "D") (str "/") (str "db") (str "/b") (some [])
        ⟨2024, 3, 1, 10, 15, 30⟩ ⟨[], [str "/b"], []⟩ (str "/tmp") =
      backup_database (true, str "D") (str "/") (str "db") (str "/b") none
        ⟨2024, 3, 1, 10, 15, 30⟩ ⟨[], [str "/b"], []⟩ (str "/tmp") ∧
    backupFileName (str "db") (some (str "r")) ⟨2024, 3, 1, 10, 15, 30⟩ =
      str "db" ++ str "_sql_" ++ str "r" ++ str "_" ++ strftimeTS ⟨2024, 3, 1, 10, 15, 30⟩ :=
  ⟨(C10_falsy_reason (true, str "D") (str "/") (str "db") (str "/b")
      ⟨2024, 3, 1, 10, 15, 30⟩ ⟨[], [str "/b"], []⟩ (str "/tmp")).1,
    (C10_falsy_reason (true, str "D") (str "/") (str "db") (str "/b")
      ⟨2024, 3, 1, 10, 15, 30⟩ ⟨[], [str "/b"], []⟩ (str "/tmp")).2.2.2 (str "r") (by decide)⟩

/-- C7: `dump_database` invokes the external dump program with the no-owner
option on the given database, directing it to write to
`<directory>/database_dump.sql`, and returns exactly that path; the
invocation is recorded also when the external tool fails. -/
theorem C7_dump_database (oracle : Bool × Str) (cwd dir db : Str) (st : St) :
    (oracle.1 = true → ∃ st1, dump_database oracle cwd dir db st =
      .ok (osJoin dir (str "database_dump.sql"), st1) ∧
      st1.calls = st.calls ++ [⟨db, true, osJoin dir (str "database_dump.sql")⟩] ∧
      lookupF st1.files (resolvePath cwd (osJoin dir (str "database_dump.sql"))) =
        some (.text oracle.2)) ∧
    (oracle.1 = false → ∃ e st1, dump_database oracle cwd dir db st = .error (e, st1) ∧
      st1.calls = st.calls ++ [⟨db, true, osJoin dir (str "database_dump.sql")⟩] ∧
      st1.files = st.files) := by
  constructor
  · intro ho
    refine ⟨({ st with calls := st.calls ++ [⟨db, true,
        osJoin dir (str "database_dump.sql")⟩] } : St).setFile
        (resolvePath cwd (osJoin dir (str "database_dump.sql"))) (.text oracle.2), ?_, rfl, ?_⟩
    · unfold dump_database pgDump
      simp only [ho, if_true]
    · simp [St.setFile, lookupF]
  · intro hf
    refine ⟨.externalToolError db, { st with calls := st.calls ++ [⟨db, true,
        osJoin dir (str "database_dump.sql")⟩] }, ?_, rfl, rfl⟩
    unfold dump_database pgDump
    simp only [hf, Bool.false_eq_true, if_false]

/-- Witness for C7 at a concrete input. -/
theorem C7_witness :
    ∃ st1, dump_database (true, str "D") (str "/") (str "/tmp") (str "db")
        ⟨[], [str "/tmp"], []⟩ =
      .ok (osJoin (str "/tmp") (str "database_dump.sql"), st1) ∧
      st1.calls = [] ++ [⟨str "db", true, osJoin (str "/tmp") (str "database_dump.sql")⟩] ∧
      lookupF st1.files (resolvePath (str "/") (osJoin (str "/tmp")
        (str "database_dump.sql"))) = some (.text (str "D")) :=
  (C7_dump_database (true, str "D") (str "/") (str "/tmp") (str "db")
    ⟨[], [str "/tmp"], []⟩).1 rfl

/-- C5: cleanup runs only on the success path — when the dump succeeds and
`compress_files` then raises (here: missing destination directory, so opening
the archive fails), `backup_database` propagates the fault, performs no
deletion, and the dump file `/tmp/database_dump.sql` is left in place. -/
theorem C5_no_cleanup_on_failure {oracle : Bool × Str} {cwd db dest : Str}
    {reason : Option Str} {now : DateTime} {st : St}
    (ho : oracle.1 = true)
    (hdb : '/' ∉ db) (hr : '/' ∉ reason.getD [])
    (hd1 : startsWithSlash dest = true) (hd2 : endsWithSlash dest = false)
    (hdir : st.isDir dest = false) :
    ∃ e st1, backup_database oracle cwd db dest reason now st = .error (e, st1) ∧
      lookupF st1.files (str "/tmp/database_dump.sql") = some (.text oracle.2) ∧
      (∀ q, q ≠ str "/tmp/database_dump.sql" → lookupF st1.files q = lookupF st.files q) ∧
      st1.dirs = st.dirs := by
  have hdj : osJoin (str "/tmp") (str "database_dump.sql") = str "/tmp/database_dump.sql" := by
    decide
  have hdj2 : osJoin (str "/tmp") (str "/tmp/database_dump.sql") =
      str "/tmp/database_dump.sql" := by decide
  have hrj : resolvePath cwd (str "/tmp/database_dump.sql") = str "/tmp/database_dump.sql" := by
    unfold resolvePath
    rw [if_pos (by decide)]
  have hnsl : '/' ∉ backupFileName db reason now ++ str ".tar.bz2" :=
    noSlash_archiveName now hdb hr
  have hfn0 : startsWithSlash (backupFileName db reason now ++ str ".tar.bz2") = false :=
    startsWithSlash_of_noSlash hnsl
  have hdne : dest ≠ [] := ne_nil_of_startsWithSlash hd1
  have hjoin : osJoin dest (backupFileName db reason now ++ str ".tar.bz2") =
      dest ++ '/' :: (backupFileName db reason now ++ str ".tar.bz2") :=
    osJoin_std hfn0 hdne hd2
  have habs : startsWithSlash (osJoin dest (backupFileName db reason now ++ str ".tar.bz2")) =
      true := by
    rw [hjoin]
    exact startsWithSlash_append_left _ hd1
  have hres : resolvePath cwd (osJoin dest (backupFileName db reason now ++ str ".tar.bz2")) =
      osJoin dest (backupFileName db reason now ++ str ".tar.bz2") := by
    unfold resolvePath
    rw [if_pos habs]
  have hdirn : osDirname (osJoin dest (backupFileName db reason now ++ str ".tar.bz2")) =
      dest := by
    rw [hjoin]
    exact osDirname_concat hdne hd2 hnsl
  have hde : dest.isEmpty = false := by
    cases dest with
    | nil => exact absurd rfl hdne
    | cons c cs => rfl
  refine ⟨.ioError (osJoin dest (backupFileName db reason now ++ str ".tar.bz2")),
    ({ st with calls := st.calls ++ [⟨db, true, str "/tmp/database_dump.sql"⟩] } : St).setFile
      (str "/tmp/database_dump.sql") (.text oracle.2), ?_, ?_, ?_, rfl⟩
  · have hcomp : ∀ stX : St, stX.isDir dest = false →
        compress_files cwd (backupFileName db reason now)
          [str "/tmp/database_dump.sql"] (some dest) stX =
        .error (.ioError (osJoin dest (backupFileName db reason now ++ str ".tar.bz2")),
          stX) := by
      intro stX hX
      unfold compress_files
      simp only [hde, Bool.false_eq_true, if_false, hres, hdirn, hX]
    unfold backup_database dump_database pgDump
    simp only [ho, if_true, hdj, hdj2, hrj]
    rw [hcomp (({ st with calls := st.calls ++ [⟨db, true, str "/tmp/database_dump.sql"⟩] } :
      St).setFile (str "/tmp/database_dump.sql") (.text oracle.2)) hdir]
  · simp [St.setFile, lookupF]
  · intro q hq
    simp only [St.setFile, lookupF]
    rw [if_neg (fun he => hq he.symm)]

/-- Witness for C5 at a concrete input (destination `/nope` does not exist). -/
theorem C5_witness :
    ∃ e st1, backup_database (true, str "D") (str "/w") (str "orders") (str "/nope") none
        ⟨2024, 3, 1, 10, 15, 30⟩ ⟨[], [str "/", str "/tmp"], []⟩ = .error (e, st1) ∧
      lookupF st1.files (str "/tmp/database_dump.sql") = some (.text (str "D")) ∧
      (∀ q, q ≠ str "/tmp/database_dump.sql" →
        lookupF st1.files q = lookupF (⟨[], [str "/", str "/tmp"], []⟩ : St).files q) ∧
      st1.dirs = (⟨[], [str "/", str "/tmp"], []⟩ : St).dirs :=
  C5_no_cleanup_on_failure rfl (by decide) (by decide) (by decide) (by decide) (by decide)

/-- C3: the top-level backup sequence (dump, archive, clean) runs inside a
catch-all boundary — whatever `backup_database` does, `mainRun` continues to
the relocation step and returns `move_files`' result directly (so a
relocation fault propagates uncaught); in particular, when the dump step
fails, `backup_database` raises after creating no file and no exception
escapes the top-level backup call. -/
theorem C3_main_error_boundary (oracle : Bool × Str) (cwd db bdir odir : Str)
    (reason : Option Str) (now : DateTime) (st : St) (hdb : db ≠ []) :
    (∃ st1, mainRun oracle cwd (some db) true bdir odir reason now st =
      move_files cwd odir bdir st1) ∧
    (oracle.1 = false →
      ∃ e st1, backup_database oracle cwd db bdir reason now st = .error (e, st1) ∧
        st1.files = st.files ∧ st1.dirs = st.dirs ∧
        mainRun oracle cwd (some db) true bdir odir reason now st =
          move_files cwd odir bdir st1) := by
  have htr : optTruthy (some db) = true := by
    unfold optTruthy
    cases db with
    | nil => exact absurd rfl hdb
    | cons c cs => rfl
  constructor
  · cases hb : backup_database oracle cwd db bdir reason now st with
    | ok v =>
      obtain ⟨p, st2⟩ := v
      refine ⟨st2, ?_⟩
      unfold mainRun
      simp only [htr, if_true, Option.getD_some, hb]
    | error es =>
      obtain ⟨e, st2⟩ := es
      refine ⟨st2, ?_⟩
      unfold mainRun
      simp only [htr, if_true, Option.getD_some, hb]
  · intro hf
    have hdj : osJoin (str "/tmp") (str "database_dump.sql") =
        str "/tmp/database_dump.sql" := by decide
    have hbe : backup_database oracle cwd db bdir reason now st =
        .error (.externalToolError db, { st with calls := st.calls ++
          [⟨db, true, str "/tmp/database_dump.sql"⟩] }) := by
      unfold backup_database dump_database pgDump
      simp only [hf, Bool.false_eq_true, if_false, hdj]
    refine ⟨.externalToolError db, { st with calls := st.calls ++
      [⟨db, true, str "/tmp/database_dump.sql"⟩] }, hbe, rfl, rfl, ?_⟩
    unfold mainRun
    simp only [htr, if_true, Option.getD_some, hbe]

/-- Witness for C3 at a concrete input (dump fails, relocation then runs and
itself fails loudly because the staging listing is resolved against the
working directory). -/
theorem C3_witness :
    (∃ st1, mainRun (false, str "") (str "/") (some (str "db")) true (str "/b") (str "/s")
        none ⟨2024, 3, 1, 10, 15, 30⟩ ⟨[], [str "/", str "/s", str "/b"], []⟩ =
      move_files (str "/") (str "/s") (str "/b") st1) ∧
    ((false, str "").1 = false →
      ∃ e st1, backup_database (false, str "") (str "/") (str "db") (str "/b") none
          ⟨2024, 3, 1, 10, 15, 30⟩ ⟨[], [str "/", str "/s", str "/b"], []⟩ = .error (e, st1) ∧
        st1.files = (⟨[], [str "/", str "/s", str "/b"], []⟩ : St).files ∧
        st1.dirs = (⟨[], [str "/", str "/s", str "/b"], []⟩ : St).dirs ∧
        mainRun (false, str "") (str "/") (some (str "db")) true (str "/b") (str "/s")
            none ⟨2024, 3, 1, 10, 15, 30⟩ ⟨[], [str "/", str "/s", str "/b"], []⟩ =
          move_files (str "/") (str "/s") (str "/b") st1) :=
  C3_main_error_boundary (false, str "") (str "/") (str "db") (str "/b") (str "/s") none
    ⟨2024, 3, 1, 10, 15, 30⟩ ⟨[], [str "/", str "/s", str "/b"], []⟩ (by decide)

/-- C4: for every name, list of existing input files and existing destination
directory, `compress_files` creates `<destination>/<name>.tar.bz2` — a bzip2
stream at maximum compression level 9 holding a tar in which each input path
is stored as `<name>/<base name of input path>` — and returns that (not
necessarily absolute) path; a falsy destination (the default `None`, or the
empty string) is replaced by the current directory `"."`. -/
theorem C4_compress_files {cwd name dest : Str} {files : List Str} {st : St}
    (hdir : st.isDir (osDirname (resolvePath cwd
      (osJoin dest (name ++ str ".tar.bz2")))) = true)
    (hdne : dest ≠ [])
    (hin : ∀ f ∈ files, (lookupF st.files (resolvePath cwd f)).isSome = true)
    (hnotarch : ∀ f ∈ files,
      resolvePath cwd f ≠ resolvePath cwd (osJoin dest (name ++ str ".tar.bz2"))) :
    (∃ st2, compress_files cwd name files (some dest) st =
      .ok (osJoin dest (name ++ str ".tar.bz2"), st2) ∧
      lookupF st2.files (resolvePath cwd (osJoin dest (name ++ str ".tar.bz2"))) =
        some (.tarbz2 9 (files.map fun f =>
          (osJoin name (osBasename f), contentAt st (resolvePath cwd f))))) ∧
    (∀ st0 : St, ∀ nm fs, compress_files cwd nm fs none st0 =
      compress_files cwd nm fs (some (str ".")) st0) := by
  constructor
  · have hin2 : ∀ f ∈ files,
        (lookupF ((st.setFile (resolvePath cwd (osJoin dest (name ++ str ".tar.bz2")))
          (.tarbz2 9 [])).files) (resolvePath cwd f)).isSome = true := by
      intro f hf
      simp only [St.setFile, lookupF]
      rw [if_neg (fun he => hnotarch f hf he.symm)]
      exact hin f hf
    refine ⟨_, compress_files_ok hdne hdir hin2, ?_⟩
    have hmap : (files.map fun f => (osJoin name (osBasename f),
        contentAt (st.setFile (resolvePath cwd (osJoin dest (name ++ str ".tar.bz2")))
          (.tarbz2 9 [])) (resolvePath cwd f))) =
        files.map fun f => (osJoin name (osBasename f), contentAt st (resolvePath cwd f)) := by
      apply List.map_congr_left
      intro f hf
      simp only [contentAt, St.setFile, lookupF]
      rw [if_neg (fun he => hnotarch f hf he.symm)]
    rw [hmap]
    simp only [St.setFile, lookupF]
    simp
  · intro st0 nm fs
    rfl

/-- Witness for C4 at a concrete input. -/
theorem C4_witness :
    (∃ st2, compress_files (str "/") (str "n") [str "/a/x", str "/a/y"] (some (str "/d"))
        ⟨[(str "/a/x", .text (str "u")), (str "/a/y", .text (str "v"))],
          [str "/a", str "/d"], []⟩ =
      .ok (osJoin (str "/d") (str "n" ++ str ".tar.bz2"), st2) ∧
      lookupF st2.files (resolvePath (str "/")
          (osJoin (str "/d") (str "n" ++ str ".tar.bz2"))) =
        some (.tarbz2 9 ([str "/a/x", str "/a/y"].map fun f =>
          (osJoin (str "n") (osBasename f),
            contentAt ⟨[(str "/a/x", .text (str "u")), (str "/a/y", .text (str "v"))],
              [str "/a", str "/d"], []⟩ (resolvePath (str "/") f))))) ∧
    (∀ st0 : St, ∀ nm fs, compress_files (str "/") nm fs none st0 =
      compress_files (str "/") nm fs (some (str ".")) st0) :=
  C4_compress_files (by decide) (by decide) (by decide) (by decide)

/-- C8 (amended): provided no input path resolves to the produced archive
path `<destination>/<name>.tar.bz2` itself, `compress_files` creates exactly
one file — the archive — and neither deletes nor modifies any of its input
paths: every path other than the archive keeps its previous content, every
input keeps its content, and no directory is created or removed. -/
theorem C8_compress_frame {cwd name dest : Str} {files : List Str} {st : St}
    (hdir : st.isDir (osDirname (resolvePath cwd
      (osJoin dest (name ++ str ".tar.bz2")))) = true)
    (hdne : dest ≠ [])
    (hin : ∀ f ∈ files, (lookupF st.files (resolvePath cwd f)).isSome = true)
    (hnotarch : ∀ f ∈ files,
      resolvePath cwd f ≠ resolvePath cwd (osJoin dest (name ++ str ".tar.bz2"))) :
    ∃ st2, compress_files cwd name files (some dest) st =
      .ok (osJoin dest (name ++ str ".tar.bz2"), st2) ∧
      (lookupF st2.files (resolvePath cwd
        (osJoin dest (name ++ str ".tar.bz2")))).isSome = true ∧
      (∀ q, q ≠ resolvePath cwd (osJoin dest (name ++ str ".tar.bz2")) →
        lookupF st2.files q = lookupF st.files q) ∧
      (∀ f ∈ files,
        lookupF st2.files (resolvePath cwd f) = lookupF st.files (resolvePath cwd f)) ∧
      st2.dirs = st.dirs := by
  have hin2 : ∀ f ∈ files,
      (lookupF ((st.setFile (resolvePath cwd (osJoin dest (name ++ str ".tar.bz2")))
        (.tarbz2 9 [])).files) (resolvePath cwd f)).isSome = true := by
    intro f hf
    simp only [St.setFile, lookupF]
    rw [if_neg (fun he => hnotarch f hf he.symm)]
    exact hin f hf
  refine ⟨_, compress_files_ok hdne hdir hin2, ?_, ?_, ?_, rfl⟩
  · simp only [St.setFile, lookupF]
    simp
  · intro q hq
    simp only [St.setFile, lookupF]
    rw [if_neg (fun he => hq he.symm), if_neg (fun he => hq he.symm)]
  · intro f hf
    simp only [St.setFile, lookupF]
    rw [if_neg (fun he => hnotarch f hf he.symm), if_neg (fun he => hnotarch f hf he.symm)]

/-- Witness for the amended C8 at a concrete input. -/
theorem C8_witness :
    ∃ st2, compress_files (str "/") (str "n") [str "/a/x"] (some (str "/d"))
        ⟨[(str "/a/x", .text (str "u"))], [str "/a", str "/d"], []⟩ =
      .ok (osJoin (str "/d") (str "n" ++ str ".tar.bz2"), st2) ∧
      (lookupF st2.files (resolvePath (str "/")
        (osJoin (str "/d") (str "n" ++ str ".tar.bz2")))).isSome = true ∧
      (∀ q, q ≠ resolvePath (str "/") (osJoin (str "/d") (str "n" ++ str ".tar.bz2")) →
        lookupF st2.files q =
          lookupF [(str "/a/x", Content.text (str "u"))] q) ∧
      (∀ f ∈ [str "/a/x"], lookupF st2.files (resolvePath (str "/") f) =
        lookupF [(str "/a/x", Content.text (str "u"))] (resolvePath (str "/") f)) ∧
      st2.dirs = [str "/a", str "/d"] :=
  C8_compress_frame (by decide) (by decide) (by decide) (by decide)

/-- C8 counterexample to the claim as stated: when an input path is the
archive path itself, `bz2.BZ2File(full_name, 'w')` truncates it before the
tar loop reads it, so `compress_files` does modify an input: before the call
`/d/n.tar.bz2` held the text `hello`; after the (successful) call it no
longer does. -/
theorem C8_counterexample :
    ∃ st2, compress_files (str "/") (str "n") [str "/d/n.tar.bz2"] (some (str "/d"))
        ⟨[(str "/d/n.tar.bz2", .text (str "hello"))], [str "/d"], []⟩ =
      .ok (str "/d/n.tar.bz2", st2) ∧
      lookupF (⟨[(str "/d/n.tar.bz2", .text (str "hello"))], [str "/d"],
        []⟩ : St).files (str "/d/n.tar.bz2") = some (.text (str "hello")) ∧
      lookupF st2.files (str "/d/n.tar.bz2") =
        some (.tarbz2 9 [(str "n/n.tar.bz2", .tarbz2 9 [])]) ∧
      lookupF st2.files (str "/d/n.tar.bz2") ≠ some (.text (str "hello")) := by
  refine ⟨((⟨[(str "/d/n.tar.bz2", .text (str "hello"))], [str "/d"], []⟩ : St).setFile
    (str "/d/n.tar.bz2") (.tarbz2 9 [])).setFile (str "/d/n.tar.bz2")
    (.tarbz2 9 [(str "n/n.tar.bz2", .tarbz2 9 [])]), ?_, rfl, rfl, ?_⟩
  · rfl
  · intro h
    have h2 : Content.tarbz2 9 [(str "n/n.tar.bz2", .tarbz2 9 [])] =
        Content.text (str "hello") := Option.some.inj h
    exact Content.noConfusion h2

/-! ### Cleaner toolbox -/

theorem mem_keys_of_lookupF_some {fs : List (Str × Content)} {q : Str} {c : Content}
    (h : lookupF fs q = some c) : q ∈ fs.map Prod.fst := by
  induction fs with
  | nil => exact absurd h (by simp [lookupF])
  | cons e rest ih =>
    obtain ⟨p, d⟩ := e
    rw [List.map_cons]
    by_cases hp : p = q
    · subst hp
      exact List.mem_cons_self p _
    · simp only [lookupF, if_neg hp] at h
      exact List.mem_cons_of_mem _ (ih h)

theorem lookupF_rmtree (st : St) (r q : Str) :
    lookupF (st.rmtree r).files q =
      if underB r q = false then lookupF st.files q else none := by
  show lookupF (st.files.filter fun e => !underB r e.1) q = _
  induction st.files with
  | nil => simp [lookupF]
  | cons e rest ih =>
    obtain ⟨p, d⟩ := e
    by_cases hp : underB r p = false
    · rw [List.filter_cons, if_pos (by simp [hp])]
      by_cases hq : p = q
      · subst hq
        simp [lookupF, hp]
      · simp only [lookupF, if_neg hq]
        exact ih
    · rw [List.filter_cons, if_neg (by simpa using hp)]
      by_cases hq : p = q
      · subst hq
        rw [ih, if_neg (fun hh => hp hh), if_neg (fun hh => hp hh)]
      · simp only [lookupF, if_neg hq] at *
        exact ih

theorem contains_filter_underB (l : List Str) (r d : Str) :
    (l.filter (fun x => !underB r x)).contains d = (!underB r d && l.contains d) := by
  induction l with
  | nil => simp
  | cons x xs ih =>
    by_cases hdx : d = x
    · subst hdx
      by_cases hx : underB r d = false
      · rw [List.filter_cons, if_pos (by simp [hx])]
        simp [List.contains, List.elem, hx]
      · rw [List.filter_cons, if_neg (by simpa using hx)]
        rw [Bool.not_eq_false] at hx
        rw [ih, hx]
        simp
    · have hbx : (d == x) = false := beq_eq_false_iff_ne.mpr hdx
      by_cases hx : underB r x = false
      · rw [List.filter_cons, if_pos (by simp [hx])]
        simp only [List.contains, List.elem, hbx] at *
        exact ih
      · rw [List.filter_cons, if_neg (by simpa using hx)]
        simp only [List.contains, List.elem, hbx] at *
        exact ih

theorem isDir_rmtree (st : St) (r d : Str) :
    (st.rmtree r).isDir d = (!underB r d && st.isDir d) := by
  show (st.dirs.filter fun x => !underB r x).contains d = _
  exact contains_filter_underB st.dirs r d

theorem underB_self (r : Str) : underB r r = true := by
  simp [underB]

theorem ne_of_underB_eq_false {r q : Str} (h : underB r q = false) : q ≠ r := by
  intro he
  subst he
  rw [underB_self] at h
  exact absurd h (by decide)

theorem lookupF_isSome_iff {fs : List (Str × Content)} {q : Str} :
    (lookupF fs q).isSome = true ↔ q ∈ fs.map Prod.fst := by
  induction fs with
  | nil => simp [lookupF]
  | cons e rest ih =>
    obtain ⟨p, d⟩ := e
    rw [List.map_cons]
    by_cases hp : p = q
    · subst hp
      simp [lookupF]
    · simp only [lookupF, if_neg hp, List.mem_cons, ih]
      constructor
      · exact Or.inr
      · rintro (he | hm)
        · exact absurd he.symm hp
        · exact hm

theorem cleanStep_lookup_some {cwd : Str} {st : St} {p q : Str} {c : Content}
    (h : lookupF (cleanStep cwd st p).files q = some c) : lookupF st.files q = some c := by
  simp only [cleanStep] at h
  split at h
  · by_cases hq : q = resolvePath cwd p
    · rw [hq] at h
      simp only [St.removeFile, lookupF_removeKey_self] at h
      exact absurd h (by simp)
    · simp only [St.removeFile] at h
      rwa [lookupF_removeKey_other _ hq] at h
  · split at h
    · rw [lookupF_rmtree] at h
      split at h
      · exact h
      · exact absurd h (by simp)
    · exact h

theorem cleanStep_isDir_true {cwd : Str} {st : St} {p d : Str}
    (h : (cleanStep cwd st p).isDir d = true) : st.isDir d = true := by
  simp only [cleanStep] at h
  split at h
  · exact h
  · split at h
    · rw [isDir_rmtree] at h
      rw [Bool.and_eq_true] at h
      exact h.2
    · exact h

theorem cleanStep_frame_files {cwd : Str} {st : St} {p q : Str}
    (h : underB (resolvePath cwd p) q = false) :
    lookupF (cleanStep cwd st p).files q = lookupF st.files q := by
  have hne : q ≠ resolvePath cwd p := ne_of_underB_eq_false h
  simp only [cleanStep]
  split
  · simp only [St.removeFile]
    exact lookupF_removeKey_other _ hne
  · split
    · rw [lookupF_rmtree, if_pos h]
    · rfl

theorem cleanStep_frame_dirs {cwd : Str} {st : St} {p d : Str}
    (h : underB (resolvePath cwd p) d = false) :
    (cleanStep cwd st p).isDir d = st.isDir d := by
  simp only [cleanStep]
  split
  · rfl
  · split
    · rw [isDir_rmtree, h]
      simp
    · rfl

theorem cleanStep_WF {cwd : Str} {st : St} {p : Str} (hwf : st.WF) :
    (cleanStep cwd st p).WF := by
  intro q hq hd
  have hf : (cleanStep cwd st p).isFile q = true := lookupF_isSome_iff.mpr hq
  obtain ⟨c, hc⟩ := Option.isSome_iff_exists.mp hf
  have h1 : lookupF st.files q = some c := cleanStep_lookup_some hc
  have h2 : st.isDir q = true := cleanStep_isDir_true (List.elem_iff.mpr hd)
  exact hwf q (mem_keys_of_lookupF_some h1) (List.elem_iff.mp h2)

theorem cleanStep_kills {cwd : Str} {st : St} {p : Str} (hwf : st.WF) :
    (cleanStep cwd st p).isFile (resolvePath cwd p) = false ∧
    (cleanStep cwd st p).isDir (resolvePath cwd p) = false := by
  simp only [cleanStep]
  by_cases hf : st.isFile (resolvePath cwd p) = true
  · rw [if_pos hf]
    constructor
    · show (lookupF (removeKey st.files _) _).isSome = false
      rw [lookupF_removeKey_self]
      rfl
    · obtain ⟨c, hc⟩ := Option.isSome_iff_exists.mp hf
      have hk := mem_keys_of_lookupF_some hc
      have hnd := hwf _ hk
      cases hcc : st.dirs.contains (resolvePath cwd p) with
      | false => exact hcc
      | true => exact absurd (List.elem_iff.mp hcc) hnd
  · rw [if_neg hf]
    by_cases hd : st.isDir (resolvePath cwd p) = true
    · rw [if_pos hd]
      constructor
      · show (lookupF (st.rmtree _).files _).isSome = false
        rw [lookupF_rmtree, if_neg (by simp [underB_self])]
        rfl
      · rw [isDir_rmtree, underB_self]
        simp
    · rw [if_neg hd]
      exact ⟨by simpa using hf, by simpa using hd⟩

theorem cleanStep_noop {cwd : Str} {st : St} {p : Str}
    (hf : st.isFile (resolvePath cwd p) = false)
    (hd : st.isDir (resolvePath cwd p) = false) : cleanStep cwd st p = st := by
  simp only [cleanStep]
  rw [if_neg (by simp [hf]), if_neg (by simp [hd])]

theorem clean_files_lookup_some {cwd : Str} {q : Str} {c : Content} :
    ∀ {paths : List Str} {st : St},
      lookupF (clean_files cwd paths st).files q = some c → lookupF st.files q = some c := by
  intro paths
  induction paths with
  | nil => exact fun h => h
  | cons p rest ih => exact fun h => cleanStep_lookup_some (ih h)

theorem clean_files_isDir_true {cwd d : Str} :
    ∀ {paths : List Str} {st : St},
      (clean_files cwd paths st).isDir d = true → st.isDir d = true := by
  intro paths
  induction paths with
  | nil => exact fun h => h
  | cons p rest ih => exact fun h => cleanStep_isDir_true (ih h)

theorem clean_files_frame_files {cwd q : Str} :
    ∀ {paths : List Str} {st : St}, (∀ p ∈ paths, underB (resolvePath cwd p) q = false) →
      lookupF (clean_files cwd paths st).files q = lookupF st.files q := by
  intro paths
  induction paths with
  | nil => intro st _; rfl
  | cons p rest ih =>
    intro st h
    have h1 := @ih (cleanStep cwd st p) (fun x hx => h x (List.mem_cons_of_mem p hx))
    calc lookupF (clean_files cwd (p :: rest) st).files q
        = lookupF (cleanStep cwd st p).files q := h1
      _ = lookupF st.files q := cleanStep_frame_files (h p (List.mem_cons_self p rest))

theorem clean_files_frame_dirs {cwd d : Str} :
    ∀ {paths : List Str} {st : St}, (∀ p ∈ paths, underB (resolvePath cwd p) d = false) →
      (clean_files cwd paths st).isDir d = st.isDir d := by
  intro paths
  induction paths with
  | nil => intro st _; rfl
  | cons p rest ih =>
    intro st h
    have h1 := @ih (cleanStep cwd st p) (fun x hx => h x (List.mem_cons_of_mem p hx))
    calc (clean_files cwd (p :: rest) st).isDir d
        = (cleanStep cwd st p).isDir d := h1
      _ = st.isDir d := cleanStep_frame_dirs (h p (List.mem_cons_self p rest))

theorem clean_files_removes {cwd : Str} :
    ∀ {paths : List Str} {st : St}, st.WF → ∀ p ∈ paths,
      (clean_files cwd paths st).isFile (resolvePath cwd p) = false ∧
      (clean_files cwd paths st).isDir (resolvePath cwd p) = false := by
  intro paths
  induction paths with
  | nil => intro st _ p hp; exact absurd hp (List.not_mem_nil p)
  | cons x rest ih =>
    intro st hwf p hp
    rcases List.mem_cons.mp hp with he | hm
    · subst he
      have hk := @cleanStep_kills cwd st p hwf
      constructor
      · cases hff : (clean_files cwd (p :: rest) st).isFile (resolvePath cwd p) with
        | false => rfl
        | true =>
          obtain ⟨c, hc⟩ := Option.isSome_iff_exists.mp hff
          have h2 : lookupF (cleanStep cwd st p).files (resolvePath cwd p) = some c :=
            @clean_files_lookup_some cwd (resolvePath cwd p) c rest (cleanStep cwd st p) hc
          have h3 : (cleanStep cwd st p).isFile (resolvePath cwd p) = true := by
            show (lookupF _ _).isSome = true
            rw [h2]
            rfl
          rw [hk.1] at h3
          exact absurd h3 (by decide)
      · cases hdd : (clean_files cwd (p :: rest) st).isDir (resolvePath cwd p) with
        | false => rfl
        | true =>
          have h2 : (cleanStep cwd st p).isDir (resolvePath cwd p) = true :=
            @clean_files_isDir_true cwd (resolvePath cwd p) rest (cleanStep cwd st p) hdd
          rw [hk.2] at h2
          exact absurd h2 (by decide)
    · exact ih (cleanStep_WF hwf) p hm

theorem clean_files_noop {cwd : Str} :
    ∀ {paths : List Str} {st : St}, (∀ p ∈ paths, st.isFile (resolvePath cwd p) = false ∧
      st.isDir (resolvePath cwd p) = false) → clean_files cwd paths st = st := by
  intro paths
  induction paths with
  | nil => intro st _; rfl
  | cons p rest ih =>
    intro st h
    have h0 := h p (List.mem_cons_self p rest)
    show clean_files cwd rest (cleanStep cwd st p) = st
    rw [cleanStep_noop h0.1 h0.2]
    exact ih (fun x hx => h x (List.mem_cons_of_mem p hx))

/-- C6: on any mix of existing regular files, existing directories and
nonexistent paths, `clean_files` removes each listed regular file, removes
each listed directory recursively, creates nothing, touches nothing outside
the listed trees, and silently skips nonexistent paths (it can raise no
fault: it is a total function into `St`, and on a list of only nonexistent
paths it is the identity). -/
theorem C6_clean_files {cwd : Str} {paths : List Str} {st : St} (hwf : st.WF) :
    (∀ p ∈ paths, (clean_files cwd paths st).isFile (resolvePath cwd p) = false ∧
      (clean_files cwd paths st).isDir (resolvePath cwd p) = false) ∧
    (∀ q c, lookupF (clean_files cwd paths st).files q = some c →
      lookupF st.files q = some c) ∧
    (∀ q, (∀ p ∈ paths, underB (resolvePath cwd p) q = false) →
      lookupF (clean_files cwd paths st).files q = lookupF st.files q) ∧
    (∀ d, (∀ p ∈ paths, underB (resolvePath cwd p) d = false) →
      (clean_files cwd paths st).isDir d = st.isDir d) ∧
    ((∀ p ∈ paths, st.isFile (resolvePath cwd p) = false ∧
      st.isDir (resolvePath cwd p) = false) → clean_files cwd paths st = st) :=
  ⟨clean_files_removes hwf, fun _ _ h => clean_files_lookup_some h,
    fun _ h => clean_files_frame_files h, fun _ h => clean_files_frame_dirs h,
    fun h => clean_files_noop h⟩

/-- Witness for C6: a mix of an existing file, an existing directory with a
file inside, and a nonexistent path. -/
theorem C6_witness :
    (∀ p ∈ [str "/f", str "/d", str "/nope"],
      (clean_files (str "/") [str "/f", str "/d", str "/nope"] (⟨[(str "/f", .text (str "a")), (str "/d/x", .text (str "b"))], [str "/", str "/d"], []⟩ : St)).isFile
        (resolvePath (str "/") p) = false ∧
      (clean_files (str "/") [str "/f", str "/d", str "/nope"] (⟨[(str "/f", .text (str "a")), (str "/d/x", .text (str "b"))], [str "/", str "/d"], []⟩ : St)).isDir
        (resolvePath (str "/") p) = false) ∧
    (∀ q c, lookupF (clean_files (str "/") [str "/f", str "/d", str "/nope"] (⟨[(str "/f", .text (str "a")), (str "/d/x", .text (str "b"))], [str "/", str "/d"], []⟩ : St)).files q =
      some c → lookupF (⟨[(str "/f", .text (str "a")), (str "/d/x", .text (str "b"))], [str "/", str "/d"], []⟩ : St).files q = some c) ∧
    (∀ q, (∀ p ∈ [str "/f", str "/d", str "/nope"],
        underB (resolvePath (str "/") p) q = false) →
      lookupF (clean_files (str "/") [str "/f", str "/d", str "/nope"] (⟨[(str "/f", .text (str "a")), (str "/d/x", .text (str "b"))], [str "/", str "/d"], []⟩ : St)).files q =
        lookupF (⟨[(str "/f", .text (str "a")), (str "/d/x", .text (str "b"))], [str "/", str "/d"], []⟩ : St).files q) ∧
    (∀ d, (∀ p ∈ [str "/f", str "/d", str "/nope"],
        underB (resolvePath (str "/") p) d = false) →
      (clean_files (str "/") [str "/f", str "/d", str "/nope"] (⟨[(str "/f", .text (str "a")), (str "/d/x", .text (str "b"))], [str "/", str "/d"], []⟩ : St)).isDir d =
        (⟨[(str "/f", .text (str "a")), (str "/d/x", .text (str "b"))], [str "/", str "/d"], []⟩ : St).isDir d) ∧
    ((∀ p ∈ [str "/f", str "/d", str "/nope"],
      (⟨[(str "/f", .text (str "a")), (str "/d/x", .text (str "b"))], [str "/", str "/d"], []⟩ : St).isFile (resolvePath (str "/") p) = false ∧
      (⟨[(str "/f", .text (str "a")), (str "/d/x", .text (str "b"))], [str "/", str "/d"], []⟩ : St).isDir (resolvePath (str "/") p) = false) →
      clean_files (str "/") [str "/f", str "/d", str "/nope"] (⟨[(str "/f", .text (str "a")), (str "/d/x", .text (str "b"))], [str "/", str "/d"], []⟩ : St) = (⟨[(str "/f", .text (str "a")), (str "/d/x", .text (str "b"))], [str "/", str "/d"], []⟩ : St)) :=
  C6_clean_files (by decide)

/-- C2: the code evaluated at the claim's own scenario.  `move_files` lists
the origin directory but then hands the bare entry names to `shutil.copy` and
`os.remove`, which resolve them against the process working directory, not
the origin.  With working directory `/` and origin `/s` containing one file
`a`, the very first copy raises FileNotFoundError("a") and nothing is moved,
contradicting the claimed contract; the same call moves the file only when
the working directory happens to equal the origin. -/
theorem C2_move_files_resolves_against_cwd :
    move_files (str "/") (str "/s") (str "/b")
        ⟨[(str "/s/a", .text (str "x"))], [str "/", str "/s", str "/b"], []⟩ =
      .error (.fileNotFound (str "a"),
        ⟨[(str "/s/a", .text (str "x"))], [str "/", str "/s", str "/b"], []⟩) ∧
    (∃ st2, move_files (str "/s") (str "/s") (str "/b")
        ⟨[(str "/s/a", .text (str "x"))], [str "/", str "/s", str "/b"], []⟩ = .ok st2 ∧
      st2.isFile (str "/b/a") = true ∧ st2.isFile (str "/s/a") = false) := by
  constructor
  · rfl
  · exact ⟨((⟨[(str "/s/a", .text (str "x"))], [str "/", str "/s", str "/b"], []⟩ : St).setFile
      (str "/b/a") (.text (str "x"))).removeFile (str "/s/a"), rfl, rfl, rfl⟩

theorem startsWithSlash_append_ne_nil {a : Str} (b : Str) (ha : a ≠ []) :
    startsWithSlash (a ++ b) = startsWithSlash a := by
  cases a with
  | nil => exact absurd rfl ha
  | cons c cs => simp [startsWithSlash]

theorem getLast?_concat_slash {a x : Str} (hx : x ≠ []) :
    (a ++ '/' :: x).getLast? = x.getLast? := by
  rw [getLast?_append_right (by simp),
    show ('/' :: x) = ['/'] ++ x from rfl, getLast?_append_right hx]

theorem compress_files_add_fail {cwd name dest f : Str} {st : St}
    (hdne : dest ≠ [])
    (hdir : st.isDir (osDirname (resolvePath cwd
      (osJoin dest (name ++ str ".tar.bz2")))) = true)
    (hmiss : lookupF ((st.setFile (resolvePath cwd (osJoin dest (name ++ str ".tar.bz2")))
      (.tarbz2 9 [])).files) (resolvePath cwd f) = none) :
    compress_files cwd name [f] (some dest) st =
      .error (.fileNotFound f,
        st.setFile (resolvePath cwd (osJoin dest (name ++ str ".tar.bz2")))
          (.tarbz2 9 [])) := by
  have hde : dest.isEmpty = false := by
    cases dest with
    | nil => exact absurd rfl hdne
    | cons c cs => rfl
  unfold compress_files
  simp only [hde, Bool.false_eq_true, if_false, hdir, if_true]
  simp only [addEntries, hmiss]

/-- C9: `backup_database` passes the archiver the single path
`os.path.join(tmp_dir, dbase)` where `dbase` is already
`os.path.join(tmp_dir, "database_dump.sql")`.  For an absolute `tmp_dir`
(including the default `/tmp`) the double join collapses to the dump path
itself; for a relative `tmp_dir` (a plain directory name: nonempty, no
trailing slash) it yields `<tmp_dir>/<tmp_dir>/database_dump.sql`, a path
distinct from the dump file actually written — and the backup then fails:
the archiver raises FileNotFoundError on the doubled path while the dump
text sits at the resolved `<tmp_dir>/database_dump.sql`. -/
theorem C9_double_tmp_join (tmpDir : Str) :
    (startsWithSlash tmpDir = true →
      osJoin tmpDir (osJoin tmpDir (str "database_dump.sql")) =
        osJoin tmpDir (str "database_dump.sql")) ∧
    (startsWithSlash tmpDir = false → tmpDir ≠ [] → endsWithSlash tmpDir = false →
      osJoin tmpDir (osJoin tmpDir (str "database_dump.sql")) =
        tmpDir ++ '/' :: tmpDir ++ '/' :: str "database_dump.sql" ∧
      osJoin tmpDir (osJoin tmpDir (str "database_dump.sql")) ≠
        osJoin tmpDir (str "database_dump.sql")) ∧
    (∀ (oracle : Bool × Str) (cwd db dest : Str) (reason : Option Str) (now : DateTime)
      (st : St),
      oracle.1 = true →
      startsWithSlash tmpDir = false → tmpDir ≠ [] → endsWithSlash tmpDir = false →
      startsWithSlash cwd = true → endsWithSlash cwd = false →
      '/' ∉ db → '/' ∉ reason.getD [] →
      startsWithSlash dest = true → endsWithSlash dest = false →
      st.isDir dest = true →
      lookupF st.files (resolvePath cwd (osJoin tmpDir (osJoin tmpDir
        (str "database_dump.sql")))) = none →
      ∃ st1, backup_database oracle cwd db dest reason now st tmpDir =
        .error (.fileNotFound (osJoin tmpDir (osJoin tmpDir (str "database_dump.sql"))),
          st1) ∧
        lookupF st1.files (resolvePath cwd (osJoin tmpDir (str "database_dump.sql"))) =
          some (.text oracle.2)) := by
  have hdns : startsWithSlash (str "database_dump.sql") = false := by decide
  have hdnn : (str "database_dump.sql") ≠ [] := by decide
  have hdl : (str "database_dump.sql").getLast? = some 'l' := by decide
  refine ⟨?_, ?_, ?_⟩
  · intro h1
    exact osJoin_abs tmpDir (startsWithSlash_osJoin_left _ h1)
  · intro ht1 ht2 ht3
    have hj1 : osJoin tmpDir (str "database_dump.sql") =
        tmpDir ++ '/' :: str "database_dump.sql" := osJoin_std hdns ht2 ht3
    have hj1ns : startsWithSlash (osJoin tmpDir (str "database_dump.sql")) = false := by
      rw [hj1, startsWithSlash_append_ne_nil _ ht2]
      exact ht1
    have hbog : osJoin tmpDir (osJoin tmpDir (str "database_dump.sql")) =
        tmpDir ++ '/' :: (osJoin tmpDir (str "database_dump.sql")) :=
      osJoin_std hj1ns ht2 ht3
    constructor
    · rw [hbog, hj1]
      simp
    · rw [hbog, hj1]
      intro he
      have hlen := congrArg List.length he
      have htl : tmpDir.length ≠ 0 := by
        intro hz
        exact ht2 (List.length_eq_zero.mp hz)
      simp [List.length_append] at hlen
      omega
  · intro oracle cwd db dest reason now st ho ht1 ht2 ht3 hc1 hc2 hdb hr hd1 hd2 hdir habsent
    have hj1 : osJoin tmpDir (str "database_dump.sql") =
        tmpDir ++ '/' :: str "database_dump.sql" := osJoin_std hdns ht2 ht3
    have hj1ns : startsWithSlash (osJoin tmpDir (str "database_dump.sql")) = false := by
      rw [hj1, startsWithSlash_append_ne_nil _ ht2]
      exact ht1
    have hbog : osJoin tmpDir (osJoin tmpDir (str "database_dump.sql")) =
        tmpDir ++ '/' :: (osJoin tmpDir (str "database_dump.sql")) :=
      osJoin_std hj1ns ht2 ht3
    have hbogns : startsWithSlash (osJoin tmpDir (osJoin tmpDir
        (str "database_dump.sql"))) = false := by
      rw [hbog, startsWithSlash_append_ne_nil _ ht2]
      exact ht1
    have hcwdnn : cwd ≠ [] := ne_nil_of_startsWithSlash hc1
    have hdumpR : resolvePath cwd (osJoin tmpDir (str "database_dump.sql")) =
        cwd ++ '/' :: (osJoin tmpDir (str "database_dump.sql")) := by
      unfold resolvePath
      rw [if_neg (by simp [hj1ns])]
      exact osJoin_std hj1ns hcwdnn hc2
    have hbogR : resolvePath cwd (osJoin tmpDir (osJoin tmpDir (str "database_dump.sql"))) =
        cwd ++ '/' :: (osJoin tmpDir (osJoin tmpDir (str "database_dump.sql"))) := by
      unfold resolvePath
      rw [if_neg (by simp [hbogns])]
      exact osJoin_std hbogns hcwdnn hc2
    have hgl_dumpR : (resolvePath cwd (osJoin tmpDir
        (str "database_dump.sql"))).getLast? = some 'l' := by
      rw [hdumpR, hj1, getLast?_concat_slash (by simp), getLast?_concat_slash hdnn, hdl]
    have hgl_bogR : (resolvePath cwd (osJoin tmpDir (osJoin tmpDir
        (str "database_dump.sql")))).getLast? = some 'l' := by
      rw [hbogR, hbog, hj1, getLast?_concat_slash (by simp), getLast?_concat_slash (by simp),
        getLast?_concat_slash hdnn, hdl]
    have hnsl : '/' ∉ backupFileName db reason now ++ str ".tar.bz2" :=
      noSlash_archiveName now hdb hr
    have hfn0 : startsWithSlash (backupFileName db reason now ++ str ".tar.bz2") = false :=
      startsWithSlash_of_noSlash hnsl
    have hdne : dest ≠ [] := ne_nil_of_startsWithSlash hd1
    have hjoin : osJoin dest (backupFileName db reason now ++ str ".tar.bz2") =
        dest ++ '/' :: (backupFileName db reason now ++ str ".tar.bz2") :=
      osJoin_std hfn0 hdne hd2
    have habsJ : startsWithSlash (osJoin dest
        (backupFileName db reason now ++ str ".tar.bz2")) = true := by
      rw [hjoin]
      exact startsWithSlash_append_left _ hd1
    have hres : resolvePath cwd (osJoin dest (backupFileName db reason now ++
        str ".tar.bz2")) = osJoin dest (backupFileName db reason now ++ str ".tar.bz2") := by
      unfold resolvePath
      rw [if_pos habsJ]
    have hdirn : osDirname (osJoin dest (backupFileName db reason now ++ str ".tar.bz2")) =
        dest := by
      rw [hjoin]
      exact osDirname_concat hdne hd2 hnsl
    have hglrp : (resolvePath cwd (osJoin dest (backupFileName db reason now ++
        str ".tar.bz2"))).getLast? = some '2' := by
      rw [hres, hjoin, getLast?_concat_slash (archiveName_ne_nil db reason now),
        getLast?_archiveName]
    have hne_rp_dump : ¬(resolvePath cwd (osJoin dest (backupFileName db reason now ++
        str ".tar.bz2")) = resolvePath cwd (osJoin tmpDir (str "database_dump.sql"))) := by
      intro he
      rw [he, hgl_dumpR] at hglrp
      exact absurd hglrp (by decide)
    have hne_rp_bog : ¬(resolvePath cwd (osJoin dest (backupFileName db reason now ++
        str ".tar.bz2")) = resolvePath cwd (osJoin tmpDir (osJoin tmpDir
        (str "database_dump.sql")))) := by
      intro he
      rw [he, hgl_bogR] at hglrp
      exact absurd hglrp (by decide)
    have hne_dump_bog : ¬(resolvePath cwd (osJoin tmpDir (str "database_dump.sql")) =
        resolvePath cwd (osJoin tmpDir (osJoin tmpDir (str "database_dump.sql")))) := by
      intro he
      rw [hdumpR, hbogR, hbog] at he
      have hlen := congrArg List.length he
      have htl : tmpDir.length ≠ 0 := by
        intro hz
        exact ht2 (List.length_eq_zero.mp hz)
      simp [List.length_append] at hlen
      omega
    have hmiss : lookupF (((({ st with calls := st.calls ++ [⟨db, true,
        osJoin tmpDir (str "database_dump.sql")⟩] } : St).setFile
        (resolvePath cwd (osJoin tmpDir (str "database_dump.sql"))) (.text oracle.2)).setFile
        (resolvePath cwd (osJoin dest (backupFileName db reason now ++ str ".tar.bz2")))
        (.tarbz2 9 [])).files)
        (resolvePath cwd (osJoin tmpDir (osJoin tmpDir (str "database_dump.sql")))) = none := by
      simp only [St.setFile, lookupF]
      rw [if_neg hne_rp_bog, if_neg hne_dump_bog]
      exact habsent
    refine ⟨(({ st with calls := st.calls ++ [⟨db, true,
        osJoin tmpDir (str "database_dump.sql")⟩] } : St).setFile
        (resolvePath cwd (osJoin tmpDir (str "database_dump.sql"))) (.text oracle.2)).setFile
        (resolvePath cwd (osJoin dest (backupFileName db reason now ++ str ".tar.bz2")))
        (.tarbz2 9 []), ?_, ?_⟩
    · unfold backup_database dump_database pgDump
      simp only [ho, if_true]
      rw [compress_files_add_fail hdne (by rw [hres, hdirn]; exact hdir) hmiss]
    · simp only [St.setFile, lookupF]
      rw [if_neg hne_rp_dump]
      simp

/-- Witness for C9 at concrete inputs: tmp_dir `/tmp` (absolute) and `t`
(relative, with working directory `/w` and `/w/t` existing). -/
theorem C9_witness :
    (osJoin (str "/tmp") (osJoin (str "/tmp") (str "database_dump.sql")) =
      osJoin (str "/tmp") (str "database_dump.sql")) ∧
    (osJoin (str "t") (osJoin (str "t") (str "database_dump.sql")) =
      str "t" ++ '/' :: str "t" ++ '/' :: str "database_dump.sql" ∧
     osJoin (str "t") (osJoin (str "t") (str "database_dump.sql")) ≠
      osJoin (str "t") (str "database_dump.sql")) ∧
    (∃ st1, backup_database (true, str "D") (str "/w") (str "db") (str "/b") none
        ⟨2024, 3, 1, 10, 15, 30⟩ ⟨[], [str "/b", str "/w/t"], []⟩ (str "t") =
      .error (.fileNotFound (osJoin (str "t") (osJoin (str "t") (str "database_dump.sql"))),
        st1) ∧
      lookupF st1.files (resolvePath (str "/w") (osJoin (str "t")
        (str "database_dump.sql"))) = some (.text (str "D"))) :=
  ⟨(C9_double_tmp_join (str "/tmp")).1 (by decide),
   (C9_double_tmp_join (str "t")).2.1 (by decide) (by decide) (by decide),
   (C9_double_tmp_join (str "t")).2.2 (true, str "D") (str "/w") (str "db") (str "/b") none
     ⟨2024, 3, 1, 10, 15, 30⟩ ⟨[], [str "/b", str "/w/t"], []⟩ rfl (by decide) (by decide)
     (by decide) (by decide) (by decide) (by decide) (by decide) (by decide) (by decide)
     (by decide) rfl⟩
